import Mathlib

/-!
Shallow embedding of src/src/sentry/nodestore/bigtable/backend.py
(BigtableNodeStorage): the chunk codec, the TTL policy and the row codec,
with the get/set paths modelled as pure functions over an explicit row
state and an explicit clock.

Conventions of the embedding:
  * a blob is a byte sequence, modelled as a List Nat;
  * datetimes and timedeltas are exact integer microsecond counts (Int);
    int(ttl.total_seconds()) is truncation toward zero, Int.quot by 10^6;
  * a cell written with timestamp=None is stamped by the store itself, so
    a write-side timestamp is an Option Int;
  * struct.error raised by struct.pack with an out-of-range argument is
    the InvalidTTL failure of the spec;
  * the single mutate_rows call is represented by the RowMutation value
    that set returns: Except.error means the exception was raised before
    any store I/O was issued.
-/

namespace Bigtable

/-- bytes_per_column = 1024 * 1024 * 10 in the source: the slice width of
one chunk column. -/
def bytes_per_column : Nat := 1024 * 1024 * 10

/-- max_size = 1024 * 1024 * 100 in the source. -/
def max_size : Nat := 1024 * 1024 * 100

/-- columns = [text_type(i).encode() for i in range(max_size / bytes_per_column)]:
the chunk column identifiers, modelled by their integer indices. -/
def columns : List Nat := List.range (max_size / bytes_per_column)

/-- One fetched cell: its value and its (store-assigned, concrete)
timestamp, as seen by get via row.cells[column_family][column][0]. -/
structure Cell where
  value : List Nat
  timestamp : Int
deriving DecidableEq

/-- A fetched row, i.e. the column-family map of read_row: at most one
relevant cell under the reserved ttl column, and at most one cell under
each chunk column index. -/
structure FetchedRow where
  ttlCell : Option Cell
  chunkCells : Nat → Option Cell

/-- The column walk of get: for column in self.columns, break on a
missing column (KeyError), return absent (none) when has_ttl and the
cell timestamp is strictly before now, else collect the cell value. -/
def getLoop (r : FetchedRow) (has_ttl : Bool) (now : Int) :
    List Nat → Option (List (List Nat))
  | [] => some []
  | c :: rest =>
    match r.chunkCells c with
    | none => some []
    | some cell =>
      if has_ttl ∧ cell.timestamp < now then none
      else
        match getLoop r has_ttl now rest with
        | none => none
        | some ds => some (cell.value :: ds)

/-- BigtableNodeStorage.get, up to the external json_loads call: none is
absence (missing row, or logical TTL expiry); some d is the byte
concatenation handed to the deserializer. -/
def get (row : Option FetchedRow) (now : Int) : Option (List Nat) :=
  match row with
  | none => none
  | some r =>
    match getLoop r r.ttlCell.isSome now columns with
    | none => none
    | some ds => some ds.flatten

/-- A physical column: the reserved ttl column or a chunk column index. -/
inductive Col where
  | ttl : Col
  | chunk : Nat → Col
deriving DecidableEq

/-- One set_cell issued while building the write: column, value, and the
timestamp argument (none models timestamp=None, stamped by the store). -/
structure WriteCell where
  column : Col
  value : List Nat
  timestamp : Option Int
deriving DecidableEq

/-- The single row mutation handed to mutate_rows: row.delete() first
(deleteAll), then the accumulated set_cell calls in order. -/
structure RowMutation where
  deleteAll : Bool
  cells : List WriteCell
deriving DecidableEq

/-- Failure of set before any store I/O. InvalidTTL is the struct.error
raised by struct.pack with a '<I'-unrepresentable argument. -/
inductive SetError where
  | InvalidTTL : SetError
deriving DecidableEq

/-- ttl = ttl or self.default_ttl. Python or falls through on a falsy
left operand, and timedelta(0) is falsy, so a zero requested TTL falls
back to the default TTL exactly like an absent one. -/
def resolveTtl (ttl default_ttl : Option Int) : Option Int :=
  match ttl with
  | none => default_ttl
  | some t => if t = 0 then default_ttl else some t

/-- int(ttl.total_seconds()): whole seconds, truncated toward zero
(microseconds to seconds; exact integer arithmetic). -/
def ttlSeconds (t : Int) : Int := Int.tdiv t 1000000

/-- struct.pack of an unsigned 32-bit little-endian integer: the four
bytes, least significant first. -/
def packLE32 (n : Nat) : List Nat :=
  [n % 256, n / 256 % 256, n / 65536 % 256, n / 16777216 % 256]

/-- The chunking loop of set: for idx, column in enumerate(self.columns),
chunk = data[offset : offset + bytes_per_column], break when the chunk is
empty. Returns the (column, chunk value) pairs in column order. -/
def chunkLoop (data : List Nat) : Nat → List Nat → List (Nat × List Nat)
  | _, [] => []
  | idx, c :: rest =>
    let chunk := (data.drop (idx * bytes_per_column)).take bytes_per_column
    if chunk.length = 0 then []
    else (c, chunk) :: chunkLoop data (idx + 1) rest

/-- The chunk codec split: the ordered chunk values set would write. -/
def split (b : List Nat) : List (List Nat) :=
  (chunkLoop b 0 columns).map Prod.snd

/-- The chunk codec join: b''.join(data) on the read path. -/
def join (cs : List (List Nat)) : List Nat := cs.flatten

/-- BigtableNodeStorage.set as the row mutation it sends (or the failure
raised before sending anything): resolve the TTL, optionally write the
ttl metadata cell at timestamp now + ttl, then the chunk cells, all at
the same timestamp. -/
def set (data : List Nat) (ttl default_ttl : Option Int) (now : Int) :
    Except SetError RowMutation :=
  match resolveTtl ttl default_ttl with
  | none =>
    Except.ok
      { deleteAll := true
        cells := (chunkLoop data 0 columns).map
          (fun p => { column := Col.chunk p.1, value := p.2, timestamp := none }) }
  | some t =>
    if ttlSeconds t < 0 ∨ 4294967296 ≤ ttlSeconds t then
      Except.error SetError.InvalidTTL
    else
      Except.ok
        { deleteAll := true
          cells :=
            { column := Col.ttl, value := packLE32 (ttlSeconds t).toNat,
              timestamp := some (now + t) } ::
            (chunkLoop data 0 columns).map
              (fun p => ({ column := Col.chunk p.1, value := p.2,
                           timestamp := some (now + t) } : WriteCell)) }

/-- The effect of one atomic row mutation on a stored row, per column:
the last set_cell for the column wins; otherwise the delete-all clears
whatever the prior row held. -/
def applyMutation (prior : Col → Option (List Nat)) (m : RowMutation)
    (c : Col) : Option (List Nat) :=
  match (m.cells.filter (fun w => decide (w.column = c))).getLast? with
  | some w => some w.value
  | none => if m.deleteAll then none else prior c

/-! Concrete inputs used by individual witnesses and counterexamples. -/

/-- An oversize blob: one byte beyond max_size. -/
def oversized : List Nat := List.replicate (max_size + 1) 0

/-- The mutation set sends for the oversize blob: the truncated chunks. -/
def overMutation : RowMutation :=
  { deleteAll := true
    cells := (chunkLoop oversized 0 columns).map
      (fun p => { column := Col.chunk p.1, value := p.2, timestamp := none }) }

/-- A well-formed fetched row: ttl metadata cell and chunk cells all
stamped 50. -/
def rowC3 : FetchedRow :=
  { ttlCell := some { value := [1, 0, 0, 0], timestamp := 50 }
    chunkCells := fun _ => some { value := [42], timestamp := 50 } }

/-- A fetched row with a ttl metadata cell stamped far in the past but no
chunk cell at index 0. -/
def rowC3cex : FetchedRow :=
  { ttlCell := some { value := [1, 0, 0, 0], timestamp := 0 }
    chunkCells := fun _ => none }

/-- A fetched row with no ttl metadata cell. -/
def rowC6 : FetchedRow :=
  { ttlCell := none
    chunkCells := fun _ => some { value := [3], timestamp := 5 } }

/-- A fetched row with a ttl metadata cell but no chunk cells at all. -/
def rowC9 : FetchedRow :=
  { ttlCell := some { value := [0, 0, 0, 0], timestamp := 0 }
    chunkCells := fun _ => none }

/-- The mutation of set [7] with ttl 90.5 s at now = 1000. -/
def mutC4 : RowMutation :=
  { deleteAll := true
    cells := [ { column := Col.ttl, value := [90, 0, 0, 0], timestamp := some 90501000 },
               { column := Col.chunk 0, value := [7], timestamp := some 90501000 } ] }

/-- The mutation of set [9] with no ttl. -/
def mutC5 : RowMutation :=
  { deleteAll := true
    cells := [ { column := Col.chunk 0, value := [9], timestamp := none } ] }

/-- The mutation of set [1] with a requested ttl of minus half a second:
it truncates to zero whole seconds and is accepted. -/
def mutC7 : RowMutation :=
  { deleteAll := true
    cells := [ { column := Col.ttl, value := [0, 0, 0, 0], timestamp := some (-500000) },
               { column := Col.chunk 0, value := [1], timestamp := some (-500000) } ] }

/-- The mutation of set [2] with a requested ttl of zero and no default. -/
def mutC10 : RowMutation :=
  { deleteAll := true
    cells := [ { column := Col.chunk 0, value := [2], timestamp := none } ] }

/-! Basic facts about the configured constants. -/

lemma bpc_pos : 0 < bytes_per_column := by decide

lemma columns_eq_range' : columns = List.range' 0 10 := by
  have h : max_size / bytes_per_column = 10 := by decide
  rw [columns, h, List.range_eq_range']

lemma columns_length : columns.length = 10 := by
  rw [columns_eq_range', List.length_range']

lemma columns_length_mul : columns.length * bytes_per_column = max_size := by
  rw [columns_length]; decide

/-! The chunking loop: joining the produced chunk values recovers the
sliced region of the input. -/

lemma chunkLoop_flatten (data : List Nat) (cols : List Nat) :
    ∀ idx, ((chunkLoop data idx cols).map Prod.snd).flatten
      = (data.drop (idx * bytes_per_column)).take (cols.length * bytes_per_column) := by
  induction cols with
  | nil => intro idx; simp [chunkLoop]
  | cons c rest ih =>
    intro idx
    by_cases h : ((data.drop (idx * bytes_per_column)).take bytes_per_column).length = 0
    · have hd : data.drop (idx * bytes_per_column) = [] := by
        rw [List.length_take, Nat.min_eq_zero_iff] at h
        rcases h with h | h
        · exact absurd h (Nat.pos_iff_ne_zero.mp bpc_pos)
        · exact List.eq_nil_of_length_eq_zero h
      simp [chunkLoop, h, hd]
    · simp only [chunkLoop, if_neg h, List.map_cons, List.flatten_cons, ih (idx + 1)]
      have h1 : (idx + 1) * bytes_per_column = idx * bytes_per_column + bytes_per_column := by
        ring
      rw [h1, ← List.drop_drop, ← List.take_add]
      congr 1
      simp [List.length_cons]
      ring

lemma columns_cons : columns = 0 :: [1, 2, 3, 4, 5, 6, 7, 8, 9] := by decide

/-! The read-side column walk. -/

lemma getLoop_false_ne_none (r : FetchedRow) (now : Int) :
    ∀ cols, getLoop r false now cols ≠ none := by
  intro cols
  induction cols with
  | nil => simp [getLoop]
  | cons c rest ih =>
    cases hc : r.chunkCells c with
    | none => simp [getLoop, hc]
    | some cell =>
      simp only [getLoop, hc]
      rw [if_neg (by simp)]
      cases hm : getLoop r false now rest with
      | none => exact absurd hm ih
      | some ds => simp

lemma getLoop_ne_none_of_not_lt (r : FetchedRow) (b : Bool) (now : Int)
    (h : ∀ i c, r.chunkCells i = some c → ¬ c.timestamp < now) :
    ∀ cols, getLoop r b now cols ≠ none := by
  intro cols
  induction cols with
  | nil => simp [getLoop]
  | cons c rest ih =>
    cases hc : r.chunkCells c with
    | none => simp [getLoop, hc]
    | some cell =>
      simp only [getLoop, hc]
      rw [if_neg (fun hab => h c cell hc hab.2)]
      cases hm : getLoop r b now rest with
      | none => exact absurd hm ih
      | some ds => simp

/-- C2: for every blob b with 0 <= len(b) <= maxSize, concatenating the
chunks produced by split at fixed chunkSize boundaries reconstructs b
exactly: join (split b) = b. -/
theorem split_join_roundtrip (b : List Nat) (h : b.length ≤ max_size) :
    join (split b) = b := by
  rw [join, split, chunkLoop_flatten b columns 0]
  rw [Nat.zero_mul, List.drop_zero, columns_length_mul]
  exact List.take_of_length_le h

/-- C2 witness: the round trip at the concrete blob [1, 2, 3]. -/
theorem split_join_roundtrip_witness :
    ([1, 2, 3] : List Nat).length ≤ max_size ∧ join (split [1, 2, 3]) = [1, 2, 3] :=
  ⟨by decide, split_join_roundtrip [1, 2, 3] (by decide)⟩

lemma get_ne_none_of_getLoop (r : FetchedRow) (now : Int)
    (h : getLoop r r.ttlCell.isSome now columns ≠ none) :
    get (some r) now ≠ none := by
  intro hg
  simp only [get] at hg
  cases hgl : getLoop r r.ttlCell.isSome now columns with
  | none => exact h hgl
  | some ds => rw [hgl] at hg; exact Option.noConfusion hg

/-- C3 counterexample: a fetched row whose ttl metadata cell is stamped 0
but which has no chunk cell at index 0, read at now = 100: the metadata
cell is present and its timestamp lies strictly before now, yet get does
not report the row absent (it skips the expiry check entirely and returns
the empty concatenation), refuting the claimed iff over all fetched rows. -/
theorem get_expiry_iff_cex :
    rowC3cex.ttlCell.isSome = true ∧
    rowC3cex.ttlCell = some { value := [1, 0, 0, 0], timestamp := 0 } ∧
    (0 : Int) < 100 ∧
    get (some rowC3cex) 100 = some [] :=
  ⟨rfl, rfl, by decide, rfl⟩

/-- C3 (amended): for every fetched row that has a chunk cell at column
index 0 and whose cells (every chunk cell, and the ttl metadata cell when
present) all carry the same timestamp ts, get reports the row absent iff
the ttl metadata cell is present and ts is strictly before now. The
expired row is only reported absent (get mutates nothing), and without a
metadata cell the row is never reported absent through this mechanism. -/
theorem get_expiry_iff (r : FetchedRow) (now ts : Int)
    (hchunk : ∀ i c, r.chunkCells i = some c → c.timestamp = ts)
    (_hmeta : ∀ c, r.ttlCell = some c → c.timestamp = ts)
    (h0 : r.chunkCells 0 ≠ none) :
    (get (some r) now = none ↔ r.ttlCell.isSome = true ∧ ts < now) := by
  constructor
  · intro hg
    by_cases hb : r.ttlCell.isSome = true
    · refine ⟨hb, ?_⟩
      by_contra hlt
      exact get_ne_none_of_getLoop r now
        (getLoop_ne_none_of_not_lt r _ now
          (fun i c hc => by rw [hchunk i c hc]; exact hlt) columns) hg
    · simp only [Bool.not_eq_true] at hb
      have hne := getLoop_false_ne_none r now columns
      rw [← hb] at hne
      exact absurd hg (get_ne_none_of_getLoop r now hne)
  · rintro ⟨hb, hlt⟩
    cases hc0 : r.chunkCells 0 with
    | none => exact absurd hc0 h0
    | some c0 =>
      simp only [get, columns_cons, getLoop, hc0]
      rw [if_pos ⟨hb, by rw [hchunk 0 c0 hc0]; exact hlt⟩]

/-- C3 witness: a well-formed row (chunk cells present at every index,
every cell stamped 50, metadata cell present) read at now = 100 is
reported absent. -/
theorem get_expiry_iff_witness : get (some rowC3) 100 = none := by
  refine (get_expiry_iff rowC3 100 50 ?_ ?_ ?_).mpr ⟨rfl, by decide⟩
  · intro i c h
    simp only [rowC3, Option.some.injEq] at h
    rw [← h]
  · intro c h
    simp only [rowC3, Option.some.injEq] at h
    rw [← h]
  · simp [rowC3]

/-- C9: a fetched row that has a ttl metadata cell but no chunk cell at
column index 0 is never reported absent, however far in the past the
stored timestamp lies: the column walk breaks before any expiry check and
the empty byte concatenation is handed to the deserializer. -/
theorem get_ttl_without_chunk0 (r : FetchedRow) (now : Int)
    (_ht : r.ttlCell.isSome = true) (h0 : r.chunkCells 0 = none) :
    get (some r) now = some [] := by
  simp only [get, columns_cons, getLoop, h0]
  rfl

/-- C9 witness: a row holding only a ttl metadata cell stamped 0, read at
now = 1000000, is returned as the empty concatenation, not as absent. -/
theorem get_ttl_without_chunk0_witness : get (some rowC9) 1000000 = some [] :=
  get_ttl_without_chunk0 rowC9 1000000 rfl rfl

/-! The write path with no resolved ttl. -/

lemma set_none_cells (data : List Nat) (now : Int) (m : RowMutation)
    (h : set data none none now = Except.ok m) :
    ∀ w ∈ m.cells, w.column ≠ Col.ttl ∧ w.timestamp = none := by
  simp only [set, resolveTtl, Except.ok.injEq] at h
  subst h
  intro w hw
  simp only [List.mem_map] at hw
  obtain ⟨p, hp, hpw⟩ := hw
  subst hpw
  exact ⟨by simp, rfl⟩

/-- C6: with no requested ttl and no default ttl, the mutation set sends
contains no ttl metadata cell and stamps no timestamp of its own on any
cell (the store assigns its default), and a fetched row without a ttl
metadata cell is never reported absent by get, at any read time. -/
theorem set_no_ttl_permanent (data : List Nat) (now : Int)
    (r : FetchedRow) (now2 : Int) (hr : r.ttlCell = none) :
    (∃ m, set data none none now = Except.ok m ∧
       ∀ w ∈ m.cells, w.column ≠ Col.ttl ∧ w.timestamp = none) ∧
    get (some r) now2 ≠ none := by
  constructor
  · exact ⟨_, rfl, set_none_cells data now _ rfl⟩
  · have hne := getLoop_false_ne_none r now2 columns
    have hb : r.ttlCell.isSome = false := by rw [hr]; rfl
    rw [← hb] at hne
    exact get_ne_none_of_getLoop r now2 hne

/-- C6 witness: set [1, 2] with no ttl at all, and a ttl-less fetched row
read at now = 99. -/
theorem set_no_ttl_permanent_witness :
    rowC6.ttlCell = none ∧
    (∃ m, set [1, 2] none none 0 = Except.ok m ∧
       ∀ w ∈ m.cells, w.column ≠ Col.ttl ∧ w.timestamp = none) ∧
    get (some rowC6) 99 ≠ none :=
  ⟨rfl, (set_no_ttl_permanent [1, 2] 0 rowC6 99 rfl).1,
    (set_no_ttl_permanent [1, 2] 0 rowC6 99 rfl).2⟩

/-- C10: a requested ttl equal to the zero duration is falsy in Python,
so set treats it exactly like an absent ttl and falls back to the default
ttl; with no default configured it writes no ttl metadata cell and stamps
no timestamp of its own, rather than writing an immediately-expired row. -/
theorem set_zero_ttl (data : List Nat) (default_ttl : Option Int) (now : Int) :
    set data (some 0) default_ttl now = set data none default_ttl now ∧
    ∀ m, set data (some 0) none now = Except.ok m →
      ∀ w ∈ m.cells, w.column ≠ Col.ttl ∧ w.timestamp = none := by
  have hres : resolveTtl (some 0) default_ttl = resolveTtl none default_ttl := by
    simp [resolveTtl]
  constructor
  · unfold set
    rw [hres]
  · intro m hm
    have h2 : set data (some 0) (none : Option Int) now = set data none none now := by
      unfold set
      rw [show resolveTtl (some 0) (none : Option Int) = resolveTtl none none from
        by simp [resolveTtl]]
    exact set_none_cells data now m (h2 ▸ hm)

/-- C10 witness: a zero requested ttl with a configured default behaves
like no requested ttl, and with no default the concrete mutation for
set [2] holds no ttl cell and no timestamps. -/
theorem set_zero_ttl_witness :
    set [2] (some 0) (some 5000000) 3 = set [2] none (some 5000000) 3 ∧
    (∀ w ∈ mutC10.cells, w.column ≠ Col.ttl ∧ w.timestamp = none) :=
  ⟨(set_zero_ttl [2] (some 5000000) 3).1,
   (set_zero_ttl [2] (some 5000000) 3).2 mutC10 rfl⟩

lemma set_resolved (data : List Nat) (ttl default_ttl : Option Int) (now t : Int)
    (hres : resolveTtl ttl default_ttl = some t) :
    set data ttl default_ttl now =
      if ttlSeconds t < 0 ∨ 4294967296 ≤ ttlSeconds t then
        Except.error SetError.InvalidTTL
      else
        Except.ok
          { deleteAll := true
            cells := { column := Col.ttl, value := packLE32 (ttlSeconds t).toNat,
                       timestamp := some (now + t) } ::
              (chunkLoop data 0 columns).map
                (fun p => ({ column := Col.chunk p.1, value := p.2,
                             timestamp := some (now + t) } : WriteCell)) } := by
  unfold set
  rw [hres]

/-- C7 counterexample: a requested ttl of minus half a second (minus
500000 microseconds) resolves to a negative duration, yet set does not
fail with InvalidTTL: int(total_seconds()) truncates toward zero, the
value 0 packs fine, and the mutation is issued with every cell stamped
half a second into the past. -/
theorem set_invalid_ttl_cex :
    resolveTtl (some (-500000)) none = some (-500000) ∧
    (-500000 : Int) < 0 ∧
    set [1] (some (-500000)) none 0 = Except.ok mutC7 :=
  ⟨rfl, by decide, rfl⟩

/-- C7 (amended): set fails with InvalidTTL, producing no mutation at
all, exactly when the resolved ttl truncated to whole seconds is negative
or at least 2 to the 32; a negative duration of magnitude below one
second truncates to zero whole seconds and is accepted instead. -/
theorem set_invalid_ttl (data : List Nat) (ttl default_ttl : Option Int)
    (now t : Int) (hres : resolveTtl ttl default_ttl = some t)
    (hbad : ttlSeconds t < 0 ∨ 4294967296 ≤ ttlSeconds t) :
    set data ttl default_ttl now = Except.error SetError.InvalidTTL := by
  rw [set_resolved data ttl default_ttl now t hres]
  exact if_pos hbad

/-- C7 witness: a requested ttl of minus two seconds truncates to minus
two whole seconds and fails with InvalidTTL. -/
theorem set_invalid_ttl_witness :
    set [1] (some (-2000000)) none 0 = Except.error SetError.InvalidTTL :=
  set_invalid_ttl [1] (some (-2000000)) none 0 (-2000000) rfl (Or.inl (by decide))

/-- C4: when a ttl resolves (requested or default) and set succeeds,
every cell of the issued mutation (the ttl metadata cell and every chunk
cell) is stamped with the same effective write timestamp now + ttl, and
the metadata cell value is the 4-byte little-endian encoding of the ttl
in whole seconds, sub-second part truncated. -/
theorem set_ttl_cells (data : List Nat) (ttl default_ttl : Option Int)
    (now t : Int) (m : RowMutation)
    (hres : resolveTtl ttl default_ttl = some t)
    (hok : set data ttl default_ttl now = Except.ok m) :
    (∀ w ∈ m.cells, w.timestamp = some (now + t)) ∧
    (∃ w ∈ m.cells, w.column = Col.ttl ∧
       w.value = packLE32 (ttlSeconds t).toNat) := by
  rw [set_resolved data ttl default_ttl now t hres] at hok
  by_cases hbad : ttlSeconds t < 0 ∨ 4294967296 ≤ ttlSeconds t
  · rw [if_pos hbad] at hok
    exact Except.noConfusion hok
  · rw [if_neg hbad, Except.ok.injEq] at hok
    subst hok
    refine ⟨?_, ⟨_, List.mem_cons_self _ _, rfl, rfl⟩⟩
    intro w hw
    rcases List.mem_cons.mp hw with h | h
    · subst h; rfl
    · obtain ⟨p, hp, hpw⟩ := List.mem_map.mp h
      subst hpw
      rfl

/-- C4 witness: set [7] with a requested ttl of 90.5 seconds at
now = 1000 stamps both cells with 1000 + 90500000 and writes the metadata
value packLE32 90. -/
theorem set_ttl_cells_witness :
    resolveTtl (some 90500000) none = some 90500000 ∧
    set [7] (some 90500000) none 1000 = Except.ok mutC4 ∧
    ((∀ w ∈ mutC4.cells, w.timestamp = some (1000 + 90500000)) ∧
     (∃ w ∈ mutC4.cells, w.column = Col.ttl ∧
        w.value = packLE32 (ttlSeconds 90500000).toNat)) :=
  ⟨rfl, rfl, set_ttl_cells [7] (some 90500000) none 1000 90500000 mutC4 rfl rfl⟩

lemma set_unresolved (data : List Nat) (ttl default_ttl : Option Int) (now : Int)
    (hres : resolveTtl ttl default_ttl = none) :
    set data ttl default_ttl now = Except.ok
      { deleteAll := true
        cells := (chunkLoop data 0 columns).map
          (fun p => { column := Col.chunk p.1, value := p.2, timestamp := none }) } := by
  unfold set
  rw [hres]

/-! Chunk counting. -/

lemma ceil_shift (dl : Nat) (h : 0 < dl) :
    (dl + bytes_per_column - 1) / bytes_per_column
      = (dl - bytes_per_column + bytes_per_column - 1) / bytes_per_column + 1 := by
  have hb := bpc_pos
  rcases le_or_lt dl bytes_per_column with hle | hlt
  · have h1 : dl - bytes_per_column = 0 := Nat.sub_eq_zero_of_le hle
    rw [h1]
    have h2 : dl + bytes_per_column - 1 = (dl - 1) + bytes_per_column := by omega
    rw [h2, Nat.add_div_right _ hb,
      Nat.div_eq_of_lt (show dl - 1 < bytes_per_column by omega),
      Nat.div_eq_of_lt (show 0 + bytes_per_column - 1 < bytes_per_column by omega)]
  · have h2 : dl + bytes_per_column - 1 = (dl - 1) + bytes_per_column := by omega
    rw [h2, Nat.add_div_right _ hb]
    have h3 : dl - bytes_per_column + bytes_per_column - 1 = dl - 1 := by omega
    rw [h3]

lemma chunkLoop_length (data : List Nat) (cols : List Nat) :
    ∀ idx, (chunkLoop data idx cols).length
      = min cols.length
          ((data.length - idx * bytes_per_column + bytes_per_column - 1)
            / bytes_per_column) := by
  have hb := bpc_pos
  induction cols with
  | nil => intro idx; simp [chunkLoop]
  | cons c rest ih =>
    intro idx
    by_cases hc : ((data.drop (idx * bytes_per_column)).take bytes_per_column).length = 0
    · have hdl : data.length - idx * bytes_per_column = 0 := by
        rw [List.length_take, List.length_drop] at hc
        omega
      simp only [chunkLoop, if_pos hc, List.length_nil, hdl]
      rw [Nat.div_eq_of_lt (show 0 + bytes_per_column - 1 < bytes_per_column by omega)]
      simp
    · have hdl : 0 < data.length - idx * bytes_per_column := by
        rw [List.length_take, List.length_drop] at hc
        omega
      simp only [chunkLoop, if_neg hc, List.length_cons, ih (idx + 1)]
      have hsub : data.length - (idx + 1) * bytes_per_column
          = data.length - idx * bytes_per_column - bytes_per_column := by
        have hmul : (idx + 1) * bytes_per_column
            = idx * bytes_per_column + bytes_per_column := by ring
        omega
      rw [hsub, ceil_shift _ hdl]
      omega

lemma split_length_min (b : List Nat) :
    (split b).length
      = min 10 ((b.length + bytes_per_column - 1) / bytes_per_column) := by
  rw [split, List.length_map, chunkLoop_length b columns 0, columns_length]
  simp

lemma chunkLoop_ne_nil_lt (data : List Nat) (cols : List Nat) (idx : Nat)
    (h : chunkLoop data idx cols ≠ []) :
    idx * bytes_per_column < data.length := by
  have hb := bpc_pos
  cases cols with
  | nil => simp [chunkLoop] at h
  | cons c rest =>
    by_cases hc : ((data.drop (idx * bytes_per_column)).take bytes_per_column).length = 0
    · simp only [chunkLoop, if_pos hc] at h
      exact absurd rfl h
    · rw [List.length_take, List.length_drop] at hc
      omega

lemma chunkLoop_dropLast (data : List Nat) :
    ∀ (cols : List Nat) (idx : Nat) (p : Nat × List Nat),
      p ∈ (chunkLoop data idx cols).dropLast → p.2.length = bytes_per_column := by
  have hb := bpc_pos
  intro cols
  induction cols with
  | nil => intro idx p hp; simp [chunkLoop] at hp
  | cons c rest ih =>
    intro idx p hp
    by_cases hc : ((data.drop (idx * bytes_per_column)).take bytes_per_column).length = 0
    · simp only [chunkLoop, if_pos hc] at hp
      simp at hp
    · simp only [chunkLoop, if_neg hc] at hp
      cases ht : chunkLoop data (idx + 1) rest with
      | nil => rw [ht] at hp; simp at hp
      | cons q L2 =>
        rw [ht] at hp
        rw [List.dropLast_cons₂] at hp
        rcases List.mem_cons.mp hp with h | h
        · have hlt : (idx + 1) * bytes_per_column < data.length :=
            chunkLoop_ne_nil_lt data rest (idx + 1) (by rw [ht]; simp)
          subst h
          show ((data.drop (idx * bytes_per_column)).take bytes_per_column).length
            = bytes_per_column
          rw [List.length_take, List.length_drop]
          have hmul : (idx + 1) * bytes_per_column
              = idx * bytes_per_column + bytes_per_column := by ring
          omega
        · rw [← ht] at h
          exact ih (idx + 1) p h

lemma chunkLoop_mem_range' (data : List Nat) :
    ∀ (n idx : Nat) (p : Nat × List Nat),
      p ∈ chunkLoop data idx (List.range' idx n) →
      p.1 * bytes_per_column < data.length := by
  have hb := bpc_pos
  intro n
  induction n with
  | zero => intro idx p hp; simp [List.range', chunkLoop] at hp
  | succ k ih =>
    intro idx p hp
    have hr : List.range' idx (k + 1) = idx :: List.range' (idx + 1) k := rfl
    rw [hr] at hp
    by_cases hc : ((data.drop (idx * bytes_per_column)).take bytes_per_column).length = 0
    · simp only [chunkLoop, if_pos hc] at hp
      simp at hp
    · simp only [chunkLoop, if_neg hc] at hp
      rcases List.mem_cons.mp hp with h | h
      · subst h
        rw [List.length_take, List.length_drop] at hc
        show idx * bytes_per_column < data.length
        omega
      · exact ih (idx + 1) p h

/-- C1: the spec demands a PayloadTooLarge failure before any store I/O
for a blob larger than chunkSize times maxChunks; the code instead raises
nothing: evaluated at a blob of max_size + 1 zero bytes, set succeeds and
issues a row mutation whose chunks join to only the first max_size bytes,
silently dropping the final byte. -/
theorem set_oversize_truncates :
    set oversized none none 0 = Except.ok overMutation ∧
    join (overMutation.cells.map WriteCell.value) = List.replicate max_size 0 ∧
    List.replicate max_size 0 ≠ oversized := by
  refine ⟨rfl, ?_, ?_⟩
  · have hmap : overMutation.cells.map WriteCell.value
        = (chunkLoop oversized 0 columns).map Prod.snd := by
      simp only [overMutation, List.map_map]
      rfl
    rw [join, hmap, chunkLoop_flatten oversized columns 0,
      Nat.zero_mul, List.drop_zero, columns_length_mul]
    rw [show oversized = List.replicate (max_size + 1) 0 from rfl, List.take_replicate,
      min_eq_left (show max_size ≤ max_size + 1 by omega)]
  · intro h
    have h2 := congrArg List.length h
    simp only [oversized, List.length_replicate] at h2
    omega

/-- C8 counterexample: at the oversize blob of max_size + 1 bytes, split
produces maxChunks = 10 chunks, not ceil(len / chunkSize) = 11 as the
claim states for every blob. -/
theorem split_count_cex :
    (split oversized).length
      ≠ (oversized.length + bytes_per_column - 1) / bytes_per_column := by
  rw [split_length_min,
    show oversized.length = max_size + 1 from by simp [oversized]]
  decide

/-- C8 (amended): for every blob that does not exceed the configured
maximum size, split produces exactly ceil(len(b) / chunkSize) chunks,
zero chunks for the empty blob, and every chunk except possibly the last
has length exactly chunkSize (an oversize blob is instead silently capped
at maxChunks chunks). -/
theorem split_count (b : List Nat) :
    (b.length ≤ max_size →
      (split b).length = (b.length + bytes_per_column - 1) / bytes_per_column) ∧
    (b = [] → split b = []) ∧
    (∀ c ∈ (split b).dropLast, c.length = bytes_per_column) := by
  refine ⟨?_, ?_, ?_⟩
  · intro h
    rw [split_length_min]
    have hb := bpc_pos
    have hle : (b.length + bytes_per_column - 1) / bytes_per_column ≤ 10 := by
      calc (b.length + bytes_per_column - 1) / bytes_per_column
          ≤ (max_size + bytes_per_column - 1) / bytes_per_column :=
            Nat.div_le_div_right (by omega)
        _ = 10 := by decide
    omega
  · intro h
    subst h
    rfl
  · intro c hc
    rw [split, ← List.map_dropLast] at hc
    obtain ⟨p, hp, hpc⟩ := List.mem_map.mp hc
    subst hpc
    exact chunkLoop_dropLast b columns 0 p hp

/-- C8 witness: the two-byte blob [5, 6] splits into exactly one chunk. -/
theorem split_count_witness :
    (split [5, 6]).length
      = (([5, 6] : List Nat).length + bytes_per_column - 1) / bytes_per_column :=
  (split_count [5, 6]).1 (by decide)

/-- C5: every successful set is a full-row replace: the single mutation
opens with a delete of every existing cell (deleteAll) and then writes
the new cells, so whatever the prior row held, every chunk column at or
beyond the chunk count of the newly written blob reads back as absent —
no stale trailing chunk column from an earlier, larger write survives. -/
theorem set_full_replace (data : List Nat) (ttl default_ttl : Option Int)
    (now : Int) (m : RowMutation)
    (hok : set data ttl default_ttl now = Except.ok m) :
    m.deleteAll = true ∧
    ∀ (prior : Col → Option (List Nat)) (j : Nat),
      data.length ≤ j * bytes_per_column →
      applyMutation prior m (Col.chunk j) = none := by
  have hcells : m.deleteAll = true ∧
      ∀ w ∈ m.cells, w.column = Col.ttl ∨
        ∃ p ∈ chunkLoop data 0 columns, w.column = Col.chunk p.1 := by
    cases hres : resolveTtl ttl default_ttl with
    | none =>
      rw [set_unresolved data ttl default_ttl now hres, Except.ok.injEq] at hok
      subst hok
      refine ⟨rfl, ?_⟩
      intro w hw
      obtain ⟨p, hp, hpw⟩ := List.mem_map.mp hw
      subst hpw
      exact Or.inr ⟨p, hp, rfl⟩
    | some t =>
      rw [set_resolved data ttl default_ttl now t hres] at hok
      by_cases hbad : ttlSeconds t < 0 ∨ 4294967296 ≤ ttlSeconds t
      · rw [if_pos hbad] at hok
        exact Except.noConfusion hok
      · rw [if_neg hbad, Except.ok.injEq] at hok
        subst hok
        refine ⟨rfl, ?_⟩
        intro w hw
        rcases List.mem_cons.mp hw with h | h
        · subst h; exact Or.inl rfl
        · obtain ⟨p, hp, hpw⟩ := List.mem_map.mp h
          subst hpw
          exact Or.inr ⟨p, hp, rfl⟩
  refine ⟨hcells.1, ?_⟩
  intro prior j hj
  have hfil : m.cells.filter (fun w => decide (w.column = Col.chunk j)) = [] := by
    rw [List.filter_eq_nil_iff]
    intro w hw
    simp only [decide_eq_true_eq]
    intro hcol
    rcases hcells.2 w hw with h | ⟨p, hp, hpc⟩
    · rw [h] at hcol
      exact Col.noConfusion hcol
    · rw [hpc] at hcol
      injection hcol with hj2
      have hlt : p.1 * bytes_per_column < data.length := by
        rw [columns_eq_range'] at hp
        exact chunkLoop_mem_range' data 10 0 p hp
      rw [hj2] at hlt
      omega
  unfold applyMutation
  rw [hfil]
  simp [hcells.1]

/-- C5 witness: overwriting with the one-byte blob [9] leaves chunk
column 3 absent whatever the prior row held. -/
theorem set_full_replace_witness :
    mutC5.deleteAll = true ∧
    applyMutation (fun _ => some [7]) mutC5 (Col.chunk 3) = none :=
  ⟨(set_full_replace [9] none none 0 mutC5 rfl).1,
   (set_full_replace [9] none none 0 mutC5 rfl).2 (fun _ => some [7]) 3 (by decide)⟩

end Bigtable
